import Mathlib

/-!
# Verification of the sticky-note calculator (`src/main.js`)

A shallow embedding of the calculator application: a Miro board plugin that
creates "calculator" sticky notes holding the sum or product of selected
numeric sticky notes, tracks derived-note → source dependencies in an
in-memory map (`calculatorNotes`), persists that map in board metadata, and
reacts to item update/delete events.

Modelling conventions:
* JavaScript numbers are modelled as exact rationals (`ℚ`).  Where a claim is
  specifically about IEEE-754 binary64 rounding, a separate explicit model of
  binary64 rounding (`roundToDouble`) is provided and used alongside.
* Identifiers, contents and operation tags are `String`s, as in the source.
* The fallible asynchronous Miro board calls are modelled as pure functions on
  a `Board` value: a call that rejects when an item is absent is an `Option`;
  transient failures (network etc.) are injected through explicit parameters.
* `String` values are handled through their underlying `List Char`.
-/

/-- A whitespace character, as used by JavaScript `trim` (core set). -/
def isWs (c : Char) : Bool := c.isWhitespace

/-- Remove leading and trailing whitespace from a character list
(model of JavaScript `String.prototype.trim`). -/
def trimWs (l : List Char) : List Char :=
  ((l.dropWhile isWs).reverse.dropWhile isWs).reverse

/-- Model of JavaScript `value.trim()`. -/
def jsTrim (s : String) : String := String.mk (trimWs s.data)

/-- Split a maximal run of leading decimal digits off a character list. -/
def chompDigits : List Char → List Char × List Char
  | [] => ([], [])
  | c :: r =>
    if c.isDigit then
      let dr := chompDigits r
      (c :: dr.1, dr.2)
    else ([], c :: r)

/-- Numeric value of a big-endian list of decimal digit characters. -/
def digitsValN (ds : List Char) : ℕ :=
  ds.foldl (fun a c => 10 * a + (c.toNat - 48)) 0

/-- Strip one optional leading sign; returns (isNegative, rest). -/
def splitSign : List Char → Bool × List Char
  | [] => (false, [])
  | c :: r =>
    if c = '-' then (true, r)
    else if c = '+' then (false, r)
    else (false, c :: r)

/-- The characters of the literal `Infinity`. -/
def infinityChars : List Char := "Infinity".data

/-- Parse the mantissa part of an ECMAScript *StrUnsignedDecimalLiteral*
(`digits [. digits]` or `. digits`), returning its rational value and the
unconsumed rest, or `none` if no digit is found (→ `NaN`). -/
def parseMantissa (cs : List Char) : Option (ℚ × List Char) :=
  match cs with
  | [] => none
  | c :: r =>
    if c = '.' then
      let fr := chompDigits r
      if fr.1.isEmpty then none
      else some ((digitsValN fr.1 : ℚ) / (10 : ℚ) ^ fr.1.length, fr.2)
    else
      let dr := chompDigits (c :: r)
      if dr.1.isEmpty then none
      else
        match dr.2 with
        | [] => some ((digitsValN dr.1 : ℚ), [])
        | d :: r2 =>
          if d = '.' then
            let fr := chompDigits r2
            some ((digitsValN dr.1 : ℚ) + (digitsValN fr.1 : ℚ) / (10 : ℚ) ^ fr.1.length, fr.2)
          else some ((digitsValN dr.1 : ℚ), d :: r2)

/-- Parse an optional *ExponentPart* (`e`/`E`, optional sign, digits); an
indicator not followed by a digit is left unconsumed, as in ECMAScript. -/
def parseExp (cs : List Char) : ℤ × List Char :=
  match cs with
  | [] => (0, [])
  | c :: r =>
    if c = 'e' ∨ c = 'E' then
      let sg := splitSign r
      let dr := chompDigits sg.2
      if dr.1.isEmpty then (0, c :: r)
      else ((if sg.1 then -(digitsValN dr.1 : ℤ) else (digitsValN dr.1 : ℤ)), dr.2)
    else (0, c :: r)

/-- `10 ^ e` for an integer exponent, as a rational. -/
def qpow10 (e : ℤ) : ℚ :=
  if 0 ≤ e then ((10 : ℚ) ^ e.toNat) else ((10 : ℚ) ^ (-e).toNat)⁻¹

/-- Model of JavaScript `parseFloat`: skip leading whitespace, optional sign,
then the longest *StrDecimalLiteral* prefix.  The two results that fall
outside `ℚ` — `NaN` (no valid prefix) and `±Infinity` — are mapped to `0`;
no claim evaluates `parseFloat`'s value on such inputs (acceptance of them is
modelled separately by `parseFloatAccepts`). -/
def parseFloatVal (s : String) : ℚ :=
  let cs := s.data.dropWhile isWs
  let sg := splitSign cs
  if infinityChars.isPrefixOf sg.2 then 0
  else
    match parseMantissa sg.2 with
    | none => 0
    | some mr => (if sg.1 then -1 else 1) * mr.1 * qpow10 (parseExp mr.2).1

/-- Model of `!isNaN(parseFloat(s))`: `parseFloat` succeeds (does not return
`NaN`) iff after whitespace and an optional sign the input starts with
`Infinity` or a mantissa digit. -/
def parseFloatAccepts (s : String) : Bool :=
  let cs := s.data.dropWhile isWs
  let sg := splitSign cs
  infinityChars.isPrefixOf sg.2 || (parseMantissa sg.2).isSome

/-- Consume a full *ExponentPart* if present and valid, else consume nothing. -/
def expRemainder (cs : List Char) : List Char :=
  match cs with
  | [] => []
  | c :: r =>
    if c = 'e' ∨ c = 'E' then
      let dr := chompDigits (splitSign r).2
      if dr.1.isEmpty then c :: r else dr.2
    else c :: r

/-- Full-string match of an ECMAScript *StrUnsignedDecimalLiteral*
(`Infinity`, or mantissa followed by an optional exponent, consuming the
whole input). -/
def unsignedDecFull (cs : List Char) : Bool :=
  cs = infinityChars ||
    (match parseMantissa cs with
     | some mr => expRemainder mr.2 = []
     | none => false)

/-- Full-string match of a *StrDecimalLiteral* (optional sign allowed). -/
def signedDecFull (cs : List Char) : Bool :=
  unsignedDecFull (splitSign cs).2

/-- Hexadecimal digit. -/
def isHexDig (c : Char) : Bool :=
  c.isDigit || ('a' ≤ c && c ≤ 'f') || ('A' ≤ c && c ≤ 'F')

/-- Octal digit. -/
def isOctDig (c : Char) : Bool := '0' ≤ c && c ≤ '7'

/-- Binary digit. -/
def isBinDig (c : Char) : Bool := c = '0' || c = '1'

/-- Full-string match of a *NonDecimalIntegerLiteral* (`0x…`, `0o…`, `0b…`,
no sign permitted), as accepted by JavaScript string-to-number conversion. -/
def nonDecIntFull (cs : List Char) : Bool :=
  match cs with
  | c0 :: c1 :: r =>
    c0 = '0' &&
      (((c1 = 'x' || c1 = 'X') && !r.isEmpty && r.all isHexDig) ||
       ((c1 = 'o' || c1 = 'O') && !r.isEmpty && r.all isOctDig) ||
       ((c1 = 'b' || c1 = 'B') && !r.isEmpty && r.all isBinDig))
  | _ => false

/-- Full-string acceptance of an ECMAScript *StringNumericLiteral* body
(whitespace already removed).  The empty string converts to `0`, hence is
accepted (not `NaN`). -/
def numberAcceptsCore (cs : List Char) : Bool :=
  cs.isEmpty || signedDecFull cs || nonDecIntFull cs

/-- Model of `!isNaN(s)` for a string `s`: JavaScript coerces `s` with
`ToNumber`, which trims whitespace and then requires the whole remaining
string to be a numeric literal; the result is `NaN` iff that fails. -/
def numberAccepts (t : String) : Bool := numberAcceptsCore (trimWs t.data)

/-- `isNumeric` from `src/main.js` (lines 73–76):
`const cleanValue = value.toString().trim();`
`return !isNaN(cleanValue) && !isNaN(parseFloat(cleanValue)) && cleanValue !== '';` -/
def isNumeric (value : String) : Bool :=
  let cleanValue := jsTrim value
  numberAccepts cleanValue && parseFloatAccepts cleanValue && cleanValue != ""

/-- `getNumericValue` from `src/main.js` (lines 78–81):
`return parseFloat(content.toString().trim());` -/
def getNumericValue (content : String) : ℚ :=
  parseFloatVal (jsTrim content)

/-- Little-endian decimal digits of `n` (as numbers), with an explicit fuel
argument so that the recursion is structural and kernel-reducible. -/
def natToRevDigits : ℕ → ℕ → List ℕ
  | 0, _ => []
  | fuel + 1, n => if n = 0 then [] else n % 10 :: natToRevDigits fuel (n / 10)

/-- Little-endian decimal digits of `n`; empty for `n = 0`. -/
def natDigits (n : ℕ) : List ℕ := natToRevDigits n n

/-- The character for a digit value. -/
def digitChar (d : ℕ) : Char := Char.ofNat (48 + d)

/-- Big-endian decimal digit characters of `n`; empty for `n = 0`. -/
def charsOfNat (n : ℕ) : List Char := ((natDigits n).map digitChar).reverse

/-- Decimal rendering of a natural number, as JavaScript renders integers
(`(0).toString() = "0"`). -/
def natStr (n : ℕ) : List Char := if n = 0 then ['0'] else charsOfNat n

/-- Decimal rendering of an integer (JavaScript `Number.prototype.toString`
on an integral value; the exponent form used beyond `1e21` is outside the
model's intended range). -/
def intStr (n : ℤ) : List Char :=
  (if n < 0 then ['-'] else []) ++ natStr n.natAbs

/-- The rounding used by `Number.prototype.toFixed`: per ECMA-262 the sign is
removed first and the scaled magnitude is rounded to the nearest integer,
ties away from zero. -/
def jsRound6 (value : ℚ) : ℤ :=
  if value < 0 then -(⌊|value| * 10 ^ 6 + 1 / 2⌋) else ⌊value * 10 ^ 6 + 1 / 2⌋

/-- Drop trailing `'0'` characters. -/
def stripTrailingZeros (ds : List Char) : List Char :=
  (ds.reverse.dropWhile (fun c => c = '0')).reverse

/-- The six decimal digits of a fractional part `f < 10 ^ 6`, zero-padded on
the left (the digits `toFixed(6)` prints after the decimal point). -/
def fracChars (f : ℕ) : List Char :=
  List.replicate (6 - (charsOfNat f).length) '0' ++ charsOfNat f

/-- Value-level model of `parseFloat(value.toFixed(6)).toString()` for the
scaled integer `m = jsRound6 value`: `toFixed(6)` prints `m / 10^6` with
exactly six decimals, `parseFloat` reads that string back exactly (numbers
are exact rationals in this model), and `toString` prints the shortest
decimal form, i.e. drops trailing fractional zeros and a bare point. -/
def renderScaled6 (m : ℤ) : List Char :=
  let A := m.natAbs
  let ip := A / 10 ^ 6
  let fp := A % 10 ^ 6
  let fs := stripTrailingZeros (fracChars fp)
  (if m < 0 then ['-'] else []) ++ natStr ip ++ (if fs.isEmpty then [] else '.' :: fs)

/-- `formatResult` from `src/main.js` (lines 149–157):
`if (Number.isInteger(value)) return value.toString();`
`else return parseFloat(value.toFixed(6)).toString();`
`Number.isInteger` on an exact rational is `value.den = 1`. -/
def formatResult (value : ℚ) : String :=
  if value.den = 1 then String.mk (intStr value.num)
  else String.mk (renderScaled6 (jsRound6 value))

/-- The aggregation computed by `createCalculation` (lines 97–103) and
`updateCalculatorNote` (lines 219–223), which inline the identical
expression:
`if (operation === 'sum') result = values.reduce((acc, val) => acc + val, 0);`
`else result = values.reduce((acc, val) => acc * val, 1);`
Note the dispatch: anything other than `'sum'` takes the product branch.
This is the exact-rational idealization of that reduce; the program's
arithmetic is binary64 with per-step rounding, modelled faithfully by
`aggregateDouble` below; the two differ on order-sensitivity. -/
def aggregate (operation : String) (values : List ℚ) : ℚ :=
  if operation == "sum" then values.foldl (· + ·) 0
  else values.foldl (· * ·) 1

/-- Fuel-driven floor of the base-2 logarithm of a natural number
(`log2floorAux fuel n = ⌊log₂ n⌋` whenever `n ≤ fuel`, `0` for `n ≤ 1`). -/
def log2floorAux : ℕ → ℕ → ℕ
  | 0, _ => 0
  | fuel + 1, n => if n ≤ 1 then 0 else log2floorAux fuel (n / 2) + 1

/-- `⌊log₂ n⌋` for a natural number (`0` for `n ≤ 1`). -/
def natLog2f (n : ℕ) : ℕ := log2floorAux n n

/-- `⌊log₂ a⌋` for a positive rational. -/
def floorLog2Q (a : ℚ) : ℤ :=
  if 1 ≤ a then (natLog2f ⌊a⌋.toNat : ℤ)
  else -((natLog2f ((⌈a⁻¹⌉ - 1).toNat) + 1 : ℕ) : ℤ)

/-- Round a rational to the nearest integer, ties to even (the IEEE-754
default rounding used for all binary64 arithmetic and decimal→binary
conversion). -/
def roundHalfEven (x : ℚ) : ℤ :=
  let f := ⌊x⌋
  if x - f < 1 / 2 then f
  else if 1 / 2 < x - f then f + 1
  else if 2 ∣ f then f else f + 1

/-- `2 ^ e` for an integer exponent, as a rational. -/
def qpow2 (e : ℤ) : ℚ :=
  if 0 ≤ e then ((2 : ℚ) ^ e.toNat) else ((2 : ℚ) ^ (-e).toNat)⁻¹

/-- Round an exact rational to the nearest IEEE-754 binary64 value (53
significant bits, round to nearest, ties to even), as an exact rational.
Overflow to infinity and subnormal underflow are outside the intended range
and not modelled.  This is the value JavaScript actually stores for a
numeric literal or arithmetic result. -/
def roundToDouble (q : ℚ) : ℚ :=
  if q = 0 then 0
  else
    let a := |q|
    let e := floorLog2Q a - 52
    let s : ℚ := if q < 0 then -1 else 1
    s * (roundHalfEven (a / qpow2 e) : ℚ) * qpow2 e

/-- The aggregation of `createCalculation`/`updateCalculatorNote` under
faithful binary64 semantics: every intermediate `+`/`*` result is rounded to
the nearest double, as JavaScript does. -/
def aggregateDouble (operation : String) (values : List ℚ) : ℚ :=
  if operation == "sum" then values.foldl (fun acc val => roundToDouble (acc + val)) 0
  else values.foldl (fun acc val => roundToDouble (acc * val)) 1

/-- A canvas item as consumed by the app: `{id, type, content, x, y}`. -/
structure Item where
  id : String
  type : String
  content : String
  x : ℚ
  y : ℚ
deriving DecidableEq

/-- The calculation descriptor stored per calculator note
(`{type: 'calculator', operation, sourceIds, operationSymbol, createdAt}`). -/
structure CalcData where
  type : String
  operation : String
  sourceIds : List String
  operationSymbol : String
  createdAt : ℕ
deriving DecidableEq

/-- The Miro board as seen through the SDK: the live items, the single
metadata record under the key `'calculatorNotes'` (`none` = never written),
and a counter of metadata writes (to observe *whether* a write happened). -/
structure Board where
  items : List Item
  metadata : Option (List (String × CalcData))
  writes : ℕ
deriving DecidableEq

/-- The app's in-memory state: current numeric selection and the
`calculatorNotes` map, modelled as an insertion-ordered association list
(JavaScript `Map` iteration order). -/
structure AppState where
  selectedItems : List Item
  calculatorNotes : List (String × CalcData)
deriving DecidableEq

/-- JavaScript `Map.prototype.set`: replace in place if the key exists,
otherwise append. -/
def mapSet (m : List (String × CalcData)) (k : String) (v : CalcData) :
    List (String × CalcData) :=
  if m.any (fun p => p.1 == k) then
    m.map (fun p => if p.1 == k then (k, v) else p)
  else m ++ [(k, v)]

/-- JavaScript `Map.prototype.delete`. -/
def mapDelete (m : List (String × CalcData)) (k : String) :
    List (String × CalcData) :=
  m.filter (fun p => p.1 != k)

/-- JavaScript `Map.prototype.has`. -/
def mapHas (m : List (String × CalcData)) (k : String) : Bool :=
  m.any (fun p => p.1 == k)

/-- `miro.board.getItem(id)`: the first item with this id, `none` when the
item no longer exists (the SDK call rejects). -/
def getItem (b : Board) (id : String) : Option Item :=
  b.items.find? (fun it => it.id == id)

/-- `miro.board.deleteItem(id)`: `none` models the rejected promise when the
item is already gone. -/
def deleteItemB (b : Board) (id : String) : Option Board :=
  if (getItem b id).isSome then
    some { items := b.items.filter (fun it => it.id != id), metadata := b.metadata, writes := b.writes }
  else none

/-- `miro.board.updateItem({id, content})`: `none` models the rejected
promise when the item is already gone. -/
def updateContentB (b : Board) (id : String) (content : String) : Option Board :=
  if (getItem b id).isSome then
    some { items := b.items.map (fun it =>
             if it.id == id then { id := it.id, type := it.type, content := content, x := it.x, y := it.y } else it),
           metadata := b.metadata, writes := b.writes }
  else none

/-- `miro.board.setMetadata('calculatorNotes', data)`; bumps the write
counter so that "a write happened" is observable. -/
def setMetadataB (b : Board) (d : List (String × CalcData)) : Board :=
  { items := b.items, metadata := some d, writes := b.writes + 1 }

/-- JavaScript `String.prototype.includes`. -/
def containsSub (s pat : String) : Bool :=
  s.data.tails.any (fun t => pat.data.isPrefixOf t)

/-- `Math.max` over the selected items' `y` coordinates (callers guarantee a
non-empty list; `Math.max()` of an empty spread is `-Infinity`, outside the
model). -/
def listMaxQ : List ℚ → ℚ
  | [] => 0
  | y :: ys => ys.foldl (fun a v => max a v) y

/-- `saveCalculatorNotesToMetadata` from `src/main.js` (lines 241–248):
writes `Object.fromEntries(this.calculatorNotes)` wholesale under the fixed
key.  (Its own try/catch only logs; a save failure is not separately
modelled — the claims under check do not depend on it.) -/
def saveCalculatorNotesToMetadata (st : AppState) (b : Board) : Board :=
  setMetadataB b st.calculatorNotes

/-- The per-pass working set of `updateCalculatorNote` (lines 189–201): each
`sourceId` is fetched; absent items (`getItem` rejects) are skipped, and so
are items that are not sticky notes or no longer numeric. -/
def recomputeWorkingSet (calcData : CalcData) (b : Board) : List Item :=
  calcData.sourceIds.filterMap (fun sourceId =>
    match getItem b sourceId with
    | some item =>
      if item.type == "sticky_note" && isNumeric item.content then some item else none
    | none => none)

/-- `updateCalculatorNote` from `src/main.js` (lines 187–239), the recompute
procedure.  `writeFault` injects a transient failure of the content-update
call (`some msg` = the call rejects with error message `msg` even though the
item exists); the rejection raised when the calculator item is absent
carries the SDK's "not found" wording, modelled as `"Item not found"`.
The outer catch prunes the entry only when the message contains
`'not found'` (line 234); the function itself never raises. -/
def updateCalculatorNote (calculatorId : String) (calcData : CalcData)
    (st : AppState) (b : Board) (writeFault : Option String) : AppState × Board :=
  let sourceItems := recomputeWorkingSet calcData b
  if sourceItems.isEmpty then
    match deleteItemB b calculatorId with
    | some b1 =>
      let notes1 := mapDelete st.calculatorNotes calculatorId
      ({ selectedItems := st.selectedItems, calculatorNotes := notes1 }, setMetadataB b1 notes1)
    | none => (st, b)
  else
    let values := sourceItems.map (fun item => getNumericValue item.content)
    let result := aggregate calcData.operation values
    let onError := fun (msg : String) =>
      if containsSub msg "not found" then
        let notes1 := mapDelete st.calculatorNotes calculatorId
        ({ selectedItems := st.selectedItems, calculatorNotes := notes1 }, setMetadataB b notes1)
      else (st, b)
    match updateContentB b calculatorId (formatResult result) with
    | none => onError "Item not found"
    | some b1 =>
      match writeFault with
      | some msg => onError msg
      | none => (st, b1)

/-- Outcomes of the two fallible collaborator calls inside
`createCalculation`, plus the creation timestamp: `newId = none` models
`miro.board.createStickyNote` rejecting; `tagOk = false` models the
follow-up `miro.board.updateItem({id, tagIds})` rejecting. -/
structure CreateFx where
  newId : Option String
  tagOk : Bool
  now : ℕ
deriving DecidableEq

/-- `createCalculation` from `src/main.js` (lines 83–147).  The returned
`Bool` is the success status shown to the user.  Aggregation and the
operation symbol follow lines 94–103 (`aggregate` is that exact inline
expression); placement follows lines 106–107; the tag update (lines
130–133) does not change any modelled item field, only its failure matters.
Every failure path is caught by the outer catch, which only shows an error
status. -/
def createCalculation (operation : String) (st : AppState) (b : Board) (fx : CreateFx) :
    AppState × Board × Bool :=
  if st.selectedItems.length < 2 then (st, b, false)
  else
    let values := st.selectedItems.map (fun item => getNumericValue item.content)
    let sourceIds := st.selectedItems.map (fun item => item.id)
    let result := aggregate operation values
    let operationSymbol := if operation == "sum" then "+" else "\u00d7"
    let avgX := (st.selectedItems.foldl (fun acc item => acc + item.x) 0) / (st.selectedItems.length : ℚ)
    let maxY := listMaxQ (st.selectedItems.map (fun item => item.y))
    match fx.newId with
    | none => (st, b, false)
    | some nid =>
      let calculatorNote : Item :=
        { id := nid, type := "sticky_note", content := formatResult result, x := avgX, y := maxY + 200 }
      let b1 : Board := { items := b.items ++ [calculatorNote], metadata := b.metadata, writes := b.writes }
      if fx.tagOk then
        let calculationData : CalcData :=
          { type := "calculator", operation := operation, sourceIds := sourceIds,
            operationSymbol := operationSymbol, createdAt := fx.now }
        let notes1 := mapSet st.calculatorNotes nid calculationData
        ({ selectedItems := st.selectedItems, calculatorNotes := notes1 }, setMetadataB b1 notes1, true)
      else (st, b1, false)

/-- `handleItemsDelete` from `src/main.js` (lines 168–176): for each deleted
item, if it is a tracked calculator note remove it from the map and persist;
source-only ids are not handled and no recompute is invoked. -/
def handleItemsDelete (deletedItems : List Item) (st : AppState) (b : Board) :
    AppState × Board :=
  deletedItems.foldl
    (fun acc deletedItem =>
      if mapHas acc.1.calculatorNotes deletedItem.id then
        let notes1 := mapDelete acc.1.calculatorNotes deletedItem.id
        ({ selectedItems := acc.1.selectedItems, calculatorNotes := notes1 },
         setMetadataB acc.2 notes1)
      else acc)
    (st, b)

/-- `restoreCalculatorNotes` from `src/main.js` (lines 250–280): read the
metadata record; if present, rebuild the map, probe every tracked id with
`getItem`, keep only entries whose calculator item still exists, and write
the pruned map back iff the count changed (i.e. iff something was dropped). -/
def restoreCalculatorNotes (st : AppState) (b : Board) : AppState × Board :=
  match b.metadata with
  | none => (st, b)
  | some data =>
    let valid := data.filter (fun p => (getItem b p.1).isSome)
    let st1 : AppState := { selectedItems := st.selectedItems, calculatorNotes := valid }
    if valid.length ≠ data.length then (st1, setMetadataB b valid) else (st1, b)

/-! ### Concrete fixtures used by witnesses and counterexamples -/

/-- A numeric source sticky note with content `"4"`. -/
def itemS4 : Item := { id := "s1", type := "sticky_note", content := "4", x := 0, y := 0 }

/-- A numeric source sticky note with content `"6"`. -/
def itemS6 : Item := { id := "s2", type := "sticky_note", content := "6", x := 10, y := 0 }

/-- A numeric source sticky note with content `"1.1"`. -/
def itemS11 : Item := { id := "s1", type := "sticky_note", content := "1.1", x := 0, y := 0 }

/-- A numeric source sticky note with content `"2.2"`. -/
def itemS22 : Item := { id := "s2", type := "sticky_note", content := "2.2", x := 10, y := 0 }

/-- A calculator note canvas item. -/
def calcItem : Item := { id := "c1", type := "sticky_note", content := "10", x := 5, y := 200 }

/-- A tracked sum calculation over `s1` and `s2`. -/
def cdSum : CalcData :=
  { type := "calculator", operation := "sum", sourceIds := ["s1", "s2"],
    operationSymbol := "+", createdAt := 0 }

/-- Board fixture for the reconciliation witness: the tracked calculator
item exists. -/
def bC4 : Board := { items := [calcItem], metadata := some [("c1", cdSum)], writes := 5 }

/-- App-state fixture with an empty selection and empty index. -/
def stEmpty : AppState := { selectedItems := [], calculatorNotes := [] }

/-- Board fixture: both sources and the calculator item exist. -/
def bFull : Board := { items := [itemS4, itemS6, calcItem], metadata := none, writes := 0 }

/-- App-state fixture tracking the calculation `c1`. -/
def stTracked : AppState := { selectedItems := [], calculatorNotes := [("c1", cdSum)] }

theorem roundToDouble_pos (q : ℚ) (h : 0 < q) :
    roundToDouble q =
      (roundHalfEven (q / qpow2 (floorLog2Q q - 52)) : ℚ) * qpow2 (floorLog2Q q - 52) := by
  rw [roundToDouble, if_neg h.ne']
  simp only [abs_of_pos h, if_neg (not_lt.mpr h.le), one_mul]

theorem floorLog2Q_ge_one (a : ℚ) (h1 : 1 ≤ a) :
    floorLog2Q a = (natLog2f ⌊a⌋.toNat : ℤ) := by
  rw [floorLog2Q, if_pos h1]

theorem roundHalfEven_up (x : ℚ) (f : ℤ) (hf : ⌊x⌋ = f) (h : 1 / 2 < x - f) :
    roundHalfEven x = f + 1 := by
  rw [roundHalfEven]
  simp only [hf]
  rw [if_neg (by linarith), if_pos h]

theorem roundHalfEven_down (x : ℚ) (f : ℤ) (hf : ⌊x⌋ = f) (h : x - f < 1 / 2) :
    roundHalfEven x = f := by
  rw [roundHalfEven]
  simp only [hf]
  rw [if_pos h]

/-- C9: on an item-deleted event, a tracked derived-note id is removed from
the index (exactly that entry; all others survive) and the index is
persisted; an id that is not tracked (e.g. a source-only id) leaves the
whole state unchanged — in particular the index is not modified, no
metadata write happens, no canvas item is touched, and no recompute runs
(`handleItemsDelete` never invokes the recompute procedure). -/
theorem handleItemsDelete_frame (st : AppState) (b : Board) (it : Item) :
    (mapHas st.calculatorNotes it.id = true →
      (handleItemsDelete [it] st b).1.calculatorNotes = mapDelete st.calculatorNotes it.id ∧
      (∀ p ∈ st.calculatorNotes, p.1 ≠ it.id → p ∈ (handleItemsDelete [it] st b).1.calculatorNotes) ∧
      (∀ p ∈ (handleItemsDelete [it] st b).1.calculatorNotes, p ∈ st.calculatorNotes ∧ p.1 ≠ it.id) ∧
      (handleItemsDelete [it] st b).2.metadata = some (mapDelete st.calculatorNotes it.id) ∧
      (handleItemsDelete [it] st b).2.items = b.items) ∧
    (mapHas st.calculatorNotes it.id = false →
      handleItemsDelete [it] st b = (st, b)) := by
  refine ⟨fun h => ?_, fun h => ?_⟩
  · simp only [handleItemsDelete, List.foldl_cons, List.foldl_nil, h, if_true, setMetadataB]
    refine ⟨by trivial, ?_, ?_, by trivial, by trivial⟩
    · intro p hp hne
      simp [mapDelete, List.mem_filter, hp, bne_iff_ne, hne]
    · intro p hp
      simp [mapDelete, List.mem_filter, bne_iff_ne] at hp
      exact hp
  · simp [handleItemsDelete, h]

/-- Witness for C9: concrete delete events, one for a tracked calculator
note (the entry disappears, the other entry survives, the pruned map is
persisted) and one for a source-only id (nothing changes). -/
theorem handleItemsDelete_frame_witness :
    (mapHas [("c1", cdSum)] calcItem.id = true ∧
      (handleItemsDelete [calcItem] { selectedItems := [], calculatorNotes := [("c1", cdSum)] }
          { items := [itemS4], metadata := some [("c1", cdSum)], writes := 0 }).1.calculatorNotes = []) ∧
    (mapHas [("c1", cdSum)] itemS4.id = false ∧
      handleItemsDelete [itemS4] { selectedItems := [], calculatorNotes := [("c1", cdSum)] }
          { items := [itemS4], metadata := some [("c1", cdSum)], writes := 0 } =
        ({ selectedItems := [], calculatorNotes := [("c1", cdSum)] },
         { items := [itemS4], metadata := some [("c1", cdSum)], writes := 0 })) := by
  constructor
  · have h := (handleItemsDelete_frame
      { selectedItems := [], calculatorNotes := [("c1", cdSum)] }
      { items := [itemS4], metadata := some [("c1", cdSum)], writes := 0 } calcItem).1 (by decide)
    exact ⟨by decide, by rw [h.1]; decide⟩
  · have h := (handleItemsDelete_frame
      { selectedItems := [], calculatorNotes := [("c1", cdSum)] }
      { items := [itemS4], metadata := some [("c1", cdSum)], writes := 0 } itemS4).2 (by decide)
    exact ⟨by decide, h⟩

/-- C3: `createCalculation` with fewer than 2 selected numeric items is
rejected with the whole state unchanged (no index mutation, no canvas
item); if the creation request fails the whole state is also unchanged; and
if the follow-up tag update fails, the index and the persisted metadata are
still untouched — no entry is ever registered for a canvas item that was
never created. -/
theorem createCalculation_failure_atomic (operation : String) (st : AppState)
    (b : Board) (fx : CreateFx) :
    (st.selectedItems.length < 2 → createCalculation operation st b fx = (st, b, false)) ∧
    (fx.newId = none → createCalculation operation st b fx = (st, b, false)) ∧
    (fx.tagOk = false →
      (createCalculation operation st b fx).1.calculatorNotes = st.calculatorNotes ∧
      (createCalculation operation st b fx).2.1.metadata = b.metadata) := by
  refine ⟨fun h => ?_, fun h => ?_, fun h => ?_⟩
  · simp [createCalculation, h]
  · by_cases h2 : st.selectedItems.length < 2
    · simp [createCalculation, h2]
    · simp [createCalculation, h2, h]
  · by_cases h2 : st.selectedItems.length < 2
    · simp [createCalculation, h2]
    · cases hn : fx.newId with
      | none => simp [createCalculation, h2, hn]
      | some nid => simp [createCalculation, h2, hn, h]

/-- Witness for C3: an empty selection is rejected outright; with two
numeric selections, a failing creation request leaves the state unchanged
and a failing tag update leaves index and metadata unchanged. -/
theorem createCalculation_failure_atomic_witness :
    createCalculation "sum" stEmpty { items := [], metadata := none, writes := 0 }
        { newId := none, tagOk := true, now := 0 } =
      (stEmpty, { items := [], metadata := none, writes := 0 }, false) ∧
    createCalculation "sum" { selectedItems := [itemS4, itemS6], calculatorNotes := [] }
        { items := [itemS4, itemS6], metadata := none, writes := 0 }
        { newId := none, tagOk := true, now := 0 } =
      ({ selectedItems := [itemS4, itemS6], calculatorNotes := [] },
       { items := [itemS4, itemS6], metadata := none, writes := 0 }, false) ∧
    (createCalculation "sum" { selectedItems := [itemS4, itemS6], calculatorNotes := [] }
        { items := [itemS4, itemS6], metadata := none, writes := 0 }
        { newId := some "c1", tagOk := false, now := 0 }).1.calculatorNotes = [] := by
  refine ⟨?_, ?_, ?_⟩
  · exact (createCalculation_failure_atomic "sum" stEmpty
      { items := [], metadata := none, writes := 0 }
      { newId := none, tagOk := true, now := 0 }).1 (by decide)
  · exact (createCalculation_failure_atomic "sum"
      { selectedItems := [itemS4, itemS6], calculatorNotes := [] }
      { items := [itemS4, itemS6], metadata := none, writes := 0 }
      { newId := none, tagOk := true, now := 0 }).2.1 rfl
  · exact ((createCalculation_failure_atomic "sum"
      { selectedItems := [itemS4, itemS6], calculatorNotes := [] }
      { items := [itemS4, itemS6], metadata := none, writes := 0 }
      { newId := some "c1", tagOk := false, now := 0 }).2.2 rfl).1

/-- C4: `restoreCalculatorNotes` keeps exactly the persisted entries whose
calculator item still exists on the board, performs a metadata write iff at
least one entry was dropped, and when nothing is stale an immediate save
afterwards reproduces the previously persisted bytes. -/
theorem restoreCalculatorNotes_reconcile (st : AppState) (b : Board)
    (data : List (String × CalcData)) (hm : b.metadata = some data) :
    (∀ p, p ∈ (restoreCalculatorNotes st b).1.calculatorNotes ↔
        p ∈ data ∧ (getItem b p.1).isSome = true) ∧
    ((restoreCalculatorNotes st b).2.writes =
        b.writes + (if ∀ p ∈ data, (getItem b p.1).isSome = true then 0 else 1)) ∧
    ((∀ p ∈ data, (getItem b p.1).isSome = true) →
      (saveCalculatorNotesToMetadata (restoreCalculatorNotes st b).1
          (restoreCalculatorNotes st b).2).metadata = b.metadata) := by
  by_cases hall : ∀ p ∈ data, (getItem b p.1).isSome = true
  · have hlen : (data.filter (fun p => (getItem b p.1).isSome)).length = data.length :=
      List.filter_length_eq_length.mpr hall
    have hself : data.filter (fun p => (getItem b p.1).isSome) = data :=
      List.filter_eq_self.mpr hall
    refine ⟨fun p => ?_, ?_, fun _ => ?_⟩
    · simp [restoreCalculatorNotes, hm, hlen, List.mem_filter]
    · rw [if_pos hall]
      simp [restoreCalculatorNotes, hm, hlen]
    · simp [restoreCalculatorNotes, hm, hlen, saveCalculatorNotesToMetadata, setMetadataB, hself]
  · have hlen : (data.filter (fun p => (getItem b p.1).isSome)).length ≠ data.length := by
      intro hc
      exact hall (List.filter_length_eq_length.mp hc)
    refine ⟨fun p => ?_, ?_, fun hc => absurd hc hall⟩
    · simp [restoreCalculatorNotes, hm, hlen, List.mem_filter]
    · rw [if_neg hall]
      simp [restoreCalculatorNotes, hm, hlen, setMetadataB]

/-- Witness for C4: with one persisted entry whose calculator item exists,
reconciliation drops nothing, performs no metadata write, and an immediate
save reproduces the persisted record. -/
theorem restoreCalculatorNotes_reconcile_witness :
    (("c1", cdSum) ∈ (restoreCalculatorNotes stEmpty bC4).1.calculatorNotes ∧
      (restoreCalculatorNotes stEmpty bC4).2.writes = 5 ∧
      (saveCalculatorNotesToMetadata (restoreCalculatorNotes stEmpty bC4).1
          (restoreCalculatorNotes stEmpty bC4).2).metadata = some [("c1", cdSum)]) := by
  have h := restoreCalculatorNotes_reconcile stEmpty bC4 [("c1", cdSum)] rfl
  refine ⟨(h.1 ("c1", cdSum)).mpr ⟨by decide, by decide⟩, ?_, ?_⟩
  · rw [h.2.1, if_pos (by decide)]
    decide
  · rw [h.2.2 (by decide)]
    decide

theorem deleteItemB_of_present (b : Board) (id : String)
    (h : (getItem b id).isSome = true) :
    deleteItemB b id =
      some { items := b.items.filter (fun it => it.id != id),
             metadata := b.metadata, writes := b.writes } := by
  rw [deleteItemB, if_pos h]

theorem deleteItemB_of_absent (b : Board) (id : String)
    (h : (getItem b id).isSome = false) :
    deleteItemB b id = none := by
  rw [deleteItemB, if_neg]
  simp [h]

theorem updateContentB_of_absent (b : Board) (id content : String)
    (h : (getItem b id).isSome = false) :
    updateContentB b id content = none := by
  rw [updateContentB, if_neg]
  simp [h]

theorem updateContentB_of_present (b : Board) (id content : String)
    (h : (getItem b id).isSome = true) :
    updateContentB b id content =
      some { items := b.items.map (fun it =>
               if it.id == id then { id := it.id, type := it.type, content := content, x := it.x, y := it.y } else it),
             metadata := b.metadata, writes := b.writes } := by
  rw [updateContentB, if_pos h]

theorem mapHas_mapDelete_self (m : List (String × CalcData)) (k : String) :
    mapHas (mapDelete m k) k = false := by
  simp [mapHas, mapDelete, List.any_eq_true, List.mem_filter]

/-- C2 (amended): when the recompute working set of a derived note is empty
*and the derived canvas item still exists*, the recompute procedure deletes
the canvas item, removes the id from the index (which afterwards no longer
tracks it) and persists the pruned index; when the derived canvas item is
already gone, the `deleteItem` call rejects and the procedure leaves the
whole state unchanged — in particular the index entry is *not* removed. -/
theorem updateCalculatorNote_orphan (cid : String) (cd : CalcData) (st : AppState)
    (b : Board) (fault : Option String) (hws : recomputeWorkingSet cd b = []) :
    ((getItem b cid).isSome = true →
      (updateCalculatorNote cid cd st b fault).1.calculatorNotes = mapDelete st.calculatorNotes cid ∧
      mapHas (updateCalculatorNote cid cd st b fault).1.calculatorNotes cid = false ∧
      (updateCalculatorNote cid cd st b fault).2.items = b.items.filter (fun it => it.id != cid) ∧
      (updateCalculatorNote cid cd st b fault).2.metadata = some (mapDelete st.calculatorNotes cid)) ∧
    ((getItem b cid).isSome = false →
      updateCalculatorNote cid cd st b fault = (st, b)) := by
  refine ⟨fun h => ?_, fun h => ?_⟩
  · simp only [updateCalculatorNote, hws, List.isEmpty_nil, if_true,
      deleteItemB_of_present b cid h, setMetadataB]
    exact ⟨by trivial, mapHas_mapDelete_self _ _, by trivial, by trivial⟩
  · simp only [updateCalculatorNote, hws, List.isEmpty_nil, if_true,
      deleteItemB_of_absent b cid h]

/-- Witness for C2 (amended): sources `s1`, `s2` are gone but the calculator
item `c1` still exists: the item is deleted, the entry is removed and the
pruned (empty) index is persisted.  With the calculator item also gone, the
state is untouched. -/
theorem updateCalculatorNote_orphan_witness :
    ((updateCalculatorNote "c1" cdSum { selectedItems := [], calculatorNotes := [("c1", cdSum)] }
        { items := [calcItem], metadata := none, writes := 0 } none).1.calculatorNotes = [] ∧
      (updateCalculatorNote "c1" cdSum { selectedItems := [], calculatorNotes := [("c1", cdSum)] }
        { items := [calcItem], metadata := none, writes := 0 } none).2.metadata = some []) ∧
    updateCalculatorNote "c1" cdSum { selectedItems := [], calculatorNotes := [("c1", cdSum)] }
        { items := [], metadata := none, writes := 0 } none =
      ({ selectedItems := [], calculatorNotes := [("c1", cdSum)] },
       { items := [], metadata := none, writes := 0 }) := by
  constructor
  · have h := (updateCalculatorNote_orphan "c1" cdSum
      { selectedItems := [], calculatorNotes := [("c1", cdSum)] }
      { items := [calcItem], metadata := none, writes := 0 } none (by decide)).1 (by decide)
    refine ⟨?_, ?_⟩
    · rw [h.1]
      decide
    · rw [h.2.2.2]
      decide
  · exact (updateCalculatorNote_orphan "c1" cdSum
      { selectedItems := [], calculatorNotes := [("c1", cdSum)] }
      { items := [], metadata := none, writes := 0 } none (by decide)).2 (by decide)

/-- Counterexample for C2 as stated: a derived note whose working set is
empty and whose own canvas item is already gone.  The claim requires the id
to be removed from the index; the code's inner catch skips the removal, so
the entry is still tracked afterwards and nothing was persisted. -/
theorem updateCalculatorNote_orphan_cex :
    recomputeWorkingSet cdSum { items := [], metadata := none, writes := 0 } = [] ∧
    (updateCalculatorNote "c1" cdSum { selectedItems := [], calculatorNotes := [("c1", cdSum)] }
        { items := [], metadata := none, writes := 0 } none).1.calculatorNotes = [("c1", cdSum)] ∧
    mapHas (updateCalculatorNote "c1" cdSum
        { selectedItems := [], calculatorNotes := [("c1", cdSum)] }
        { items := [], metadata := none, writes := 0 } none).1.calculatorNotes "c1" = true ∧
    (updateCalculatorNote "c1" cdSum { selectedItems := [], calculatorNotes := [("c1", cdSum)] }
        { items := [], metadata := none, writes := 0 } none).2.metadata = none := by
  refine ⟨by decide, by decide, by decide, by decide⟩

/-- C5 (amended): with a non-empty working set, a failure of the content
write-back is absorbed (the procedure never raises), but the entry is
unregistered and the pruned index persisted only when the failure's message
contains `'not found'` — which is the case when the derived item is gone
(the SDK rejection) or when an injected fault carries that wording; any
other write-back failure leaves the state entirely unchanged. -/
theorem updateCalculatorNote_writeback (cid : String) (cd : CalcData) (st : AppState)
    (b : Board) (msg : String) (hws : recomputeWorkingSet cd b ≠ []) :
    ((getItem b cid).isSome = false →
      (updateCalculatorNote cid cd st b none).1.calculatorNotes = mapDelete st.calculatorNotes cid ∧
      (updateCalculatorNote cid cd st b none).2.metadata = some (mapDelete st.calculatorNotes cid)) ∧
    ((getItem b cid).isSome = true → containsSub msg "not found" = true →
      (updateCalculatorNote cid cd st b (some msg)).1.calculatorNotes = mapDelete st.calculatorNotes cid ∧
      (updateCalculatorNote cid cd st b (some msg)).2.metadata = some (mapDelete st.calculatorNotes cid)) ∧
    ((getItem b cid).isSome = true → containsSub msg "not found" = false →
      updateCalculatorNote cid cd st b (some msg) = (st, b)) := by
  cases hl : recomputeWorkingSet cd b with
  | nil => exact absurd hl hws
  | cons a t =>
    refine ⟨fun h => ?_, fun h hmsg => ?_, fun h hmsg => ?_⟩
    · simp only [updateCalculatorNote, hl, List.isEmpty_cons, if_neg,
        updateContentB_of_absent b cid _ h, setMetadataB]
      rw [if_pos (show containsSub "Item not found" "not found" = true by decide)]
      exact ⟨by trivial, by trivial⟩
    · simp only [updateCalculatorNote, hl, List.isEmpty_cons, if_neg,
        updateContentB_of_present b cid _ h, setMetadataB]
      rw [if_pos hmsg]
      exact ⟨by trivial, by trivial⟩
    · simp only [updateCalculatorNote, hl, List.isEmpty_cons, if_neg,
        updateContentB_of_present b cid _ h, setMetadataB]
      rw [if_neg (show ¬ containsSub msg "not found" = true by simp [hmsg])]
      simp

/-- Witness for C5 (amended): with live sources, a write-back rejection
whose message carries the SDK's `'not found'` wording (the derived item was
concurrently deleted) unregisters the entry and persists; with the derived
item present, a fault with that wording does the same. -/
theorem updateCalculatorNote_writeback_witness :
    ((updateCalculatorNote "c1" cdSum stTracked
        { items := [itemS4, itemS6], metadata := none, writes := 0 } none).1.calculatorNotes = [] ∧
      (updateCalculatorNote "c1" cdSum stTracked
        { items := [itemS4, itemS6], metadata := none, writes := 0 } none).2.metadata = some []) ∧
    (updateCalculatorNote "c1" cdSum stTracked bFull
        (some "sticky note not found")).1.calculatorNotes = [] := by
  constructor
  · have h := (updateCalculatorNote_writeback "c1" cdSum stTracked
      { items := [itemS4, itemS6], metadata := none, writes := 0 } "x" (by decide)).1 (by decide)
    refine ⟨?_, ?_⟩
    · rw [h.1]
      decide
    · rw [h.2]
      decide
  · have h := ((updateCalculatorNote_writeback "c1" cdSum stTracked bFull
      "sticky note not found" (by decide)).2.1 (by decide) (by decide)).1
    rw [h]
    decide

/-- Counterexample for C5 as stated: a transient write-back failure whose
message does not mention `'not found'` (e.g. a network error).  The claim
requires the entry to be unregistered and persisted for *every* write-back
failure; the code only does so for `'not found'` messages, so here the
entry stays registered and nothing is persisted (the error is still not
raised further). -/
theorem updateCalculatorNote_writeback_cex :
    recomputeWorkingSet cdSum bFull ≠ [] ∧
    (getItem bFull "c1").isSome = true ∧
    (updateCalculatorNote "c1" cdSum stTracked bFull
        (some "network error")).1.calculatorNotes = [("c1", cdSum)] ∧
    (updateCalculatorNote "c1" cdSum stTracked bFull
        (some "network error")).2.metadata = none := by
  refine ⟨by decide, by decide, by decide, by decide⟩

theorem roundToDouble_zero : roundToDouble (0 : ℚ) = 0 := by
  rw [roundToDouble, if_pos rfl]

theorem roundToDouble_one : roundToDouble (1 : ℚ) = 1 := by
  rw [roundToDouble_pos _ (by norm_num)]
  have hL : floorLog2Q (1 : ℚ) = 0 := by
    rw [floorLog2Q_ge_one _ (by norm_num), show (⌊(1 : ℚ)⌋) = 1 by norm_num]
    decide
  rw [hL]
  rw [show qpow2 ((0 : ℤ) - 52) = (4503599627370496 : ℚ)⁻¹ by
    rw [show ((0 : ℤ) - 52) = -52 by norm_num, qpow2, if_neg (by norm_num),
      show (-(-52 : ℤ)).toNat = 52 by decide]
    norm_num]
  rw [roundHalfEven_down _ 4503599627370496 (by norm_num) (by norm_num)]
  norm_num

theorem roundToDouble_1e20 :
    roundToDouble (100000000000000000000 : ℚ) = 100000000000000000000 := by
  rw [roundToDouble_pos _ (by norm_num)]
  have hL : floorLog2Q (100000000000000000000 : ℚ) = 66 := by
    rw [floorLog2Q_ge_one _ (by norm_num),
      show (⌊(100000000000000000000 : ℚ)⌋) = 100000000000000000000 by norm_num]
    decide
  rw [hL]
  rw [show qpow2 ((66 : ℤ) - 52) = (16384 : ℚ) by
    rw [show ((66 : ℤ) - 52) = 14 by norm_num, qpow2, if_pos (by norm_num),
      show ((14 : ℤ)).toNat = 14 by decide]
    norm_num]
  rw [roundHalfEven_down _ 6103515625000000 (by norm_num) (by norm_num)]
  norm_num

theorem roundToDouble_1e20_plus1 :
    roundToDouble ((100000000000000000000 : ℚ) + 1) = 100000000000000000000 := by
  rw [show (100000000000000000000 : ℚ) + 1 = 100000000000000000001 by norm_num]
  rw [roundToDouble_pos _ (by norm_num)]
  have hL : floorLog2Q (100000000000000000001 : ℚ) = 66 := by
    rw [floorLog2Q_ge_one _ (by norm_num),
      show (⌊(100000000000000000001 : ℚ)⌋) = 100000000000000000001 by norm_num]
    decide
  rw [hL]
  rw [show qpow2 ((66 : ℤ) - 52) = (16384 : ℚ) by
    rw [show ((66 : ℤ) - 52) = 14 by norm_num, qpow2, if_pos (by norm_num),
      show ((14 : ℤ)).toNat = 14 by decide]
    norm_num]
  rw [roundHalfEven_down _ 6103515625000000 (by norm_num) (by norm_num)]
  norm_num

/-- C1 (amended): for both operations the aggregate is exactly the direct
fold — `+` seeded at 0 for Sum, `*` seeded at 1 for Product, with each
intermediate result rounded to binary64 in the program's arithmetic
(`aggregateDouble`), exactly `+`/`*` in the exact-rational idealization
(`aggregate`).  The result is invariant under permutation of the values in
exact arithmetic only; the program's binary64 fold is order-dependent in
general (see the counterexample). -/
theorem aggregate_fold_perm (values values2 : List ℚ) :
    aggregate "sum" values = values.foldl (· + ·) 0 ∧
    aggregate "product" values = values.foldl (· * ·) 1 ∧
    aggregateDouble "sum" values =
      values.foldl (fun acc val => roundToDouble (acc + val)) 0 ∧
    aggregateDouble "product" values =
      values.foldl (fun acc val => roundToDouble (acc * val)) 1 ∧
    (values.Perm values2 →
      aggregate "sum" values = aggregate "sum" values2 ∧
      aggregate "product" values = aggregate "product" values2) := by
  have hs : ∀ l : List ℚ, aggregate "sum" l = l.sum := fun l => by
    rw [aggregate, if_pos (by decide), List.sum_eq_foldl]
  have hp : ∀ l : List ℚ, aggregate "product" l = l.prod := fun l => by
    rw [aggregate, if_neg (by decide), List.prod_eq_foldl]
  refine ⟨?_, ?_, ?_, ?_, fun h => ⟨?_, ?_⟩⟩
  · rw [aggregate, if_pos (by decide)]
  · rw [aggregate, if_neg (by decide)]
  · rw [aggregateDouble, if_pos (by decide)]
  · rw [aggregateDouble, if_neg (by decide)]
  · rw [hs, hs, h.sum_eq]
  · rw [hp, hp, h.prod_eq]

/-- Witness for C1 (amended): the exact folds agree on a concrete
permutation pair. -/
theorem aggregate_fold_perm_witness :
    aggregate "sum" [(1 : ℚ), 2, 3] = aggregate "sum" [2, 1, 3] ∧
    aggregate "product" [(1 : ℚ), 2, 3] = aggregate "product" [2, 1, 3] :=
  ⟨((aggregate_fold_perm [1, 2, 3] [2, 1, 3]).2.2.2.2 (List.Perm.swap 2 1 [3])).1,
   ((aggregate_fold_perm [1, 2, 3] [2, 1, 3]).2.2.2.2 (List.Perm.swap 2 1 [3])).2⟩

/-- Counterexample for C1 as stated: the program folds in binary64 with
per-step rounding, which is not order-independent.  The values `1e20`, `1`
and `-1e20` are all exactly representable doubles, yet summing them in the
order `[1e20, 1, -1e20]` gives `0` (the `+1` is absorbed: `1e20 + 1` rounds
back to `1e20`), while the permutation `[1e20, -1e20, 1]` gives `1`. -/
theorem aggregate_order_dep_cex :
    ([(100000000000000000000 : ℚ), 1, -100000000000000000000].Perm
      [(100000000000000000000 : ℚ), -100000000000000000000, 1]) ∧
    aggregateDouble "sum" [(100000000000000000000 : ℚ), 1, -100000000000000000000] = 0 ∧
    aggregateDouble "sum" [(100000000000000000000 : ℚ), -100000000000000000000, 1] = 1 ∧
    aggregateDouble "sum" [(100000000000000000000 : ℚ), 1, -100000000000000000000] ≠
      aggregateDouble "sum" [(100000000000000000000 : ℚ), -100000000000000000000, 1] := by
  have h1 : aggregateDouble "sum"
      [(100000000000000000000 : ℚ), 1, -100000000000000000000] = 0 := by
    rw [aggregateDouble, if_pos (by decide)]
    simp only [List.foldl_cons, List.foldl_nil, zero_add]
    rw [roundToDouble_1e20, roundToDouble_1e20_plus1]
    rw [show (100000000000000000000 : ℚ) + -100000000000000000000 = 0 by norm_num]
    exact roundToDouble_zero
  have h2 : aggregateDouble "sum"
      [(100000000000000000000 : ℚ), -100000000000000000000, 1] = 1 := by
    rw [aggregateDouble, if_pos (by decide)]
    simp only [List.foldl_cons, List.foldl_nil, zero_add]
    rw [roundToDouble_1e20]
    rw [show (100000000000000000000 : ℚ) + -100000000000000000000 = 0 by norm_num]
    rw [roundToDouble_zero]
    rw [show (0 : ℚ) + 1 = 1 by norm_num]
    exact roundToDouble_one
  refine ⟨List.Perm.cons _ (List.Perm.swap (-100000000000000000000) 1 []), h1, h2, ?_⟩
  rw [h1, h2]
  norm_num

/-- C10: the operation dispatch has no exhaustive match — both creation and
recompute evaluate `aggregate`, whose `else` branch multiplies seeded at 1,
so every operation tag other than `"sum"` (unknown or malformed included)
is silently computed as a Product. -/
theorem aggregate_unknown_op_is_product (op : String) (h : op ≠ "sum") (values : List ℚ) :
    aggregate op values = values.foldl (· * ·) 1 ∧
    aggregate op values = aggregate "product" values := by
  have hb : ¬ ((op == "sum") = true) := by simp [h]
  constructor
  · rw [aggregate, if_neg hb]
  · rw [aggregate, if_neg hb, aggregate, if_neg (by decide)]

/-- Witness for C10: the unknown tag `"bogus"` is computed as a product. -/
theorem aggregate_unknown_op_is_product_witness :
    aggregate "bogus" [(2 : ℚ), 3] = [(2 : ℚ), 3].foldl (· * ·) 1 :=
  (aggregate_unknown_op_is_product "bogus" (by decide) [2, 3]).1

theorem head_dropWhile_false (p : Char → Bool) (l : List Char) (c : Char)
    (h : (l.dropWhile p).head? = some c) : p c = false := by
  induction l with
  | nil => simp [List.dropWhile] at h
  | cons a t ih =>
    by_cases hp : p a
    · rw [List.dropWhile_cons, if_pos hp] at h
      exact ih h
    · rw [List.dropWhile_cons, if_neg hp] at h
      simp only [List.head?_cons, Option.some.injEq] at h
      rw [← h]
      exact Bool.not_eq_true _ ▸ (by simpa using hp)

theorem dropWhile_eq_self_of_head (p : Char → Bool) (l : List Char)
    (h : ∀ c, l.head? = some c → p c = false) : l.dropWhile p = l := by
  cases l with
  | nil => rfl
  | cons a t => rw [List.dropWhile_cons, if_neg (by simp [h a rfl])]

theorem trimWs_append_drop (l : List Char) : ∃ t, trimWs l ++ t = l.dropWhile isWs := by
  obtain ⟨u, hu⟩ := List.dropWhile_suffix (l := (l.dropWhile isWs).reverse) isWs
  refine ⟨u.reverse, ?_⟩
  show ((l.dropWhile isWs).reverse.dropWhile isWs).reverse ++ u.reverse = l.dropWhile isWs
  rw [← List.reverse_append, hu, List.reverse_reverse]

theorem trimWs_head (l : List Char) (c : Char) (h : (trimWs l).head? = some c) :
    isWs c = false := by
  obtain ⟨t, ht⟩ := trimWs_append_drop l
  apply head_dropWhile_false isWs l c
  rw [← ht]
  cases htr : trimWs l with
  | nil => rw [htr] at h; simp at h
  | cons a u =>
    rw [htr] at h
    simpa using h

theorem dropWhile_trimWs (l : List Char) : (trimWs l).dropWhile isWs = trimWs l :=
  dropWhile_eq_self_of_head _ _ (trimWs_head l)

theorem trimWs_idem (l : List Char) : trimWs (trimWs l) = trimWs l := by
  show (((trimWs l).dropWhile isWs).reverse.dropWhile isWs).reverse = trimWs l
  rw [dropWhile_trimWs]
  have h2 : (trimWs l).reverse = (l.dropWhile isWs).reverse.dropWhile isWs := by
    show (((l.dropWhile isWs).reverse.dropWhile isWs).reverse).reverse = _
    rw [List.reverse_reverse]
  rw [h2, List.dropWhile_idempotent]
  rfl

theorem parseMantissa_isSome_of_digit (c : Char) (r : List Char) (hd : c.isDigit = true) :
    (parseMantissa (c :: r)).isSome = true := by
  have hdot : ¬ c = '.' := by
    intro he
    subst he
    exact absurd hd (by decide)
  simp only [parseMantissa, chompDigits]
  rw [if_neg hdot, if_pos hd]
  simp only [List.isEmpty_cons, Bool.false_eq_true, if_false]
  rcases (chompDigits r).2 with _ | ⟨d, r2⟩
  · simp
  · by_cases hdd : d = '.'
    · simp [hdd]
    · simp [hdd]

theorem parseMantissa_isSome_no_sign (cs : List Char) (h : (parseMantissa cs).isSome = true) :
    splitSign cs = (false, cs) := by
  cases cs with
  | nil => simp [parseMantissa] at h
  | cons c r =>
    by_cases hdot : c = '.'
    · subst hdot
      simp only [splitSign]
      rw [if_neg (by decide), if_neg (by decide)]
    · by_cases hcd : c.isDigit
      · have h1 : ¬ c = '-' := by
          intro he
          subst he
          exact absurd hcd (by decide)
        have h2 : ¬ c = '+' := by
          intro he
          subst he
          exact absurd hcd (by decide)
        simp only [splitSign]
        rw [if_neg h1, if_neg h2]
      · exfalso
        simp [parseMantissa, hdot, chompDigits, hcd] at h

theorem isPrefixOf_self (l : List Char) : l.isPrefixOf l = true := by
  induction l with
  | nil => rfl
  | cons a t ih => simp [List.isPrefixOf, ih]

theorem pf_of_numberCore (cs : List Char) (hne : cs ≠ [])
    (h : numberAcceptsCore cs = true) :
    (infinityChars.isPrefixOf (splitSign cs).2 || (parseMantissa (splitSign cs).2).isSome) = true := by
  rw [numberAcceptsCore] at h
  simp only [Bool.or_eq_true] at h
  rcases h with (h | h) | h
  · exact absurd (by simpa [List.isEmpty_iff] using h) hne
  · rw [signedDecFull, unsignedDecFull] at h
    simp only [Bool.or_eq_true, decide_eq_true_eq] at h
    rcases h with h | h
    · rw [h, isPrefixOf_self]
      simp
    · rcases hpm : parseMantissa (splitSign cs).2 with _ | mr
      · rw [hpm] at h
        simp at h
      · simp
  · revert h
    cases cs with
    | nil => exact fun _ => absurd rfl hne
    | cons c0 rest =>
      cases rest with
      | nil =>
        intro h
        simp [nonDecIntFull] at h
      | cons c1 r =>
        intro h
        rw [nonDecIntFull] at h
        simp only [Bool.and_eq_true, decide_eq_true_eq] at h
        obtain ⟨hc0, -⟩ := h
        subst hc0
        have hsp : splitSign ('0' :: c1 :: r) = (false, '0' :: c1 :: r) := by
          simp only [splitSign]
          rw [if_neg (by decide), if_neg (by decide)]
        rw [hsp]
        have hpm2 := parseMantissa_isSome_of_digit '0' (c1 :: r) (by decide)
        simp [hpm2]

/-- C7: the numeric-content classifier accepts a string iff, after trimming
whitespace, it is non-empty and parses *fully* as a floating-point number
(the whole trimmed string is a numeric literal of JavaScript's string→number
conversion): partial-parse successes such as `"12abc"` and anything
converting to `NaN` are rejected. -/
theorem isNumeric_full_parse (s : String) :
    isNumeric s = (jsTrim s != "" && numberAccepts s) := by
  have hdata : ∀ l : List Char, (String.mk l).data = l := fun l => rfl
  by_cases hnil : trimWs s.data = []
  · simp only [isNumeric, numberAccepts, parseFloatAccepts, jsTrim, hdata, hnil]
    decide
  · have hA := trimWs_idem s.data
    have hD := dropWhile_trimWs s.data
    have hne : (String.mk (trimWs s.data) != "") = true := by
      have hmk : String.mk (trimWs s.data) ≠ "" := by
        intro hh
        apply hnil
        have hd := congrArg String.data hh
        simpa using hd
      simpa [bne_iff_ne] using hmk
    simp only [isNumeric, numberAccepts, parseFloatAccepts, jsTrim, hdata, hA, hD, hne]
    cases hacc : numberAcceptsCore (trimWs s.data) with
    | false => simp
    | true =>
      rw [pf_of_numberCore _ hnil hacc]
      simp

theorem getNumericValue_eval_4 : getNumericValue "4" = 4 := by
  simp [getNumericValue, jsTrim, trimWs, parseFloatVal, parseMantissa, chompDigits, splitSign,
    digitsValN, parseExp, qpow10, isWs, infinityChars, List.isPrefixOf, List.dropWhile]

theorem getNumericValue_eval_6 : getNumericValue "6" = 6 := by
  simp [getNumericValue, jsTrim, trimWs, parseFloatVal, parseMantissa, chompDigits, splitSign,
    digitsValN, parseExp, qpow10, isWs, infinityChars, List.isPrefixOf, List.dropWhile]

theorem getNumericValue_eval_11 : getNumericValue "1.1" = 11 / 10 := by
  simp [getNumericValue, jsTrim, trimWs, parseFloatVal, parseMantissa, chompDigits, splitSign,
    digitsValN, parseExp, qpow10, isWs, infinityChars, List.isPrefixOf, List.dropWhile]
  norm_num

theorem getNumericValue_eval_22 : getNumericValue "2.2" = 11 / 5 := by
  simp [getNumericValue, jsTrim, trimWs, parseFloatVal, parseMantissa, chompDigits, splitSign,
    digitsValN, parseExp, qpow10, isWs, infinityChars, List.isPrefixOf, List.dropWhile]
  norm_num

theorem formatResult_ten : formatResult 10 = "10" := by
  rw [formatResult, if_pos (by norm_num)]
  rw [show ((10 : ℚ).num) = 10 by norm_num]
  decide

theorem formatResult_24 : formatResult 24 = "24" := by
  rw [formatResult, if_pos (by norm_num)]
  rw [show ((24 : ℚ).num) = 24 by norm_num]
  decide

theorem formatResult_33tenths : formatResult (33 / 10) = "3.3" := by
  rw [formatResult, if_neg (by norm_num)]
  rw [show jsRound6 ((33 : ℚ) / 10) = 3300000 by norm_num [jsRound6]]
  decide

theorem roundToDouble_11tenths :
    roundToDouble (11 / 10) = 2476979795053773 / 2251799813685248 := by
  rw [roundToDouble_pos _ (by norm_num)]
  have hL : floorLog2Q (11 / 10) = 0 := by
    rw [floorLog2Q_ge_one _ (by norm_num), show (⌊(11 : ℚ) / 10⌋) = 1 by norm_num]
    decide
  rw [hL]
  rw [show qpow2 ((0 : ℤ) - 52) = (4503599627370496 : ℚ)⁻¹ by
    rw [show ((0 : ℤ) - 52) = -52 by norm_num, qpow2, if_neg (by norm_num),
      show (-(-52 : ℤ)).toNat = 52 by decide]
    norm_num]
  rw [roundHalfEven_up _ 4953959590107545 (by norm_num) (by norm_num)]
  norm_num

theorem roundToDouble_22tenths :
    roundToDouble (11 / 5) = 2476979795053773 / 1125899906842624 := by
  rw [roundToDouble_pos _ (by norm_num)]
  have hL : floorLog2Q (11 / 5) = 1 := by
    rw [floorLog2Q_ge_one _ (by norm_num), show (⌊(11 : ℚ) / 5⌋) = 2 by norm_num]
    decide
  rw [hL]
  rw [show qpow2 ((1 : ℤ) - 52) = (2251799813685248 : ℚ)⁻¹ by
    rw [show ((1 : ℤ) - 52) = -51 by norm_num, qpow2, if_neg (by norm_num),
      show (-(-51 : ℤ)).toNat = 51 by decide]
    norm_num]
  rw [roundHalfEven_up _ 4953959590107545 (by norm_num) (by norm_num)]
  norm_num

theorem roundToDouble_fix_d11 :
    roundToDouble (2476979795053773 / 2251799813685248) = 2476979795053773 / 2251799813685248 := by
  rw [roundToDouble_pos _ (by norm_num)]
  have hL : floorLog2Q (2476979795053773 / 2251799813685248) = 0 := by
    rw [floorLog2Q_ge_one _ (by norm_num),
      show (⌊(2476979795053773 : ℚ) / 2251799813685248⌋) = 1 by norm_num]
    decide
  rw [hL]
  rw [show qpow2 ((0 : ℤ) - 52) = (4503599627370496 : ℚ)⁻¹ by
    rw [show ((0 : ℤ) - 52) = -52 by norm_num, qpow2, if_neg (by norm_num),
      show (-(-52 : ℤ)).toNat = 52 by decide]
    norm_num]
  rw [roundHalfEven_down _ 4953959590107546 (by norm_num) (by norm_num)]
  norm_num

theorem roundToDouble_fix_dsum :
    roundToDouble (2476979795053773 / 2251799813685248 + 2476979795053773 / 1125899906842624) =
      7430939385161319 / 2251799813685248 := by
  rw [show (2476979795053773 : ℚ) / 2251799813685248 + 2476979795053773 / 1125899906842624 =
      7430939385161319 / 2251799813685248 by norm_num]
  rw [roundToDouble_pos _ (by norm_num)]
  have hL : floorLog2Q (7430939385161319 / 2251799813685248) = 1 := by
    rw [floorLog2Q_ge_one _ (by norm_num),
      show (⌊(7430939385161319 : ℚ) / 2251799813685248⌋) = 3 by norm_num]
    decide
  rw [hL]
  rw [show qpow2 ((1 : ℤ) - 52) = (2251799813685248 : ℚ)⁻¹ by
    rw [show ((1 : ℤ) - 52) = -51 by norm_num, qpow2, if_neg (by norm_num),
      show (-(-51 : ℤ)).toNat = 51 by decide]
    norm_num]
  rw [roundHalfEven_down _ 7430939385161319 (by norm_num) (by norm_num)]
  norm_num

theorem formatResult_dsum :
    formatResult (7430939385161319 / 2251799813685248) = "3.3" := by
  rw [formatResult, if_neg (by norm_num)]
  rw [show jsRound6 ((7430939385161319 : ℚ) / 2251799813685248) = 3300000 by norm_num [jsRound6]]
  decide

/-- C8: with source values `[4, 6]` the computed result content is `"10"`
under Sum and `"24"` under Product; with `[1.1, 2.2]` under Sum the result
content is `"3.3"` — both in the exact-rational model and under faithful
binary64 semantics (`aggregateDouble`/`roundToDouble`), where the
intermediate sum is the double `3.3000000000000003 ≠ 3.3` and `toFixed(6)`
rounding followed by trailing-zero stripping still prints `"3.3"`. -/
theorem numeric_result_examples :
    formatResult (aggregate "sum" [getNumericValue "4", getNumericValue "6"]) = "10" ∧
    formatResult (aggregate "product" [getNumericValue "4", getNumericValue "6"]) = "24" ∧
    formatResult (aggregate "sum" [getNumericValue "1.1", getNumericValue "2.2"]) = "3.3" ∧
    formatResult (aggregateDouble "sum"
        [roundToDouble (getNumericValue "1.1"), roundToDouble (getNumericValue "2.2")]) = "3.3" ∧
    aggregateDouble "sum"
        [roundToDouble (getNumericValue "1.1"), roundToDouble (getNumericValue "2.2")] ≠ 33 / 10 := by
  have hd : aggregateDouble "sum"
      [roundToDouble (getNumericValue "1.1"), roundToDouble (getNumericValue "2.2")] =
      7430939385161319 / 2251799813685248 := by
    rw [getNumericValue_eval_11, getNumericValue_eval_22, roundToDouble_11tenths,
      roundToDouble_22tenths, aggregateDouble, if_pos (by decide)]
    simp only [List.foldl_cons, List.foldl_nil, zero_add]
    rw [roundToDouble_fix_d11, roundToDouble_fix_dsum]
  refine ⟨?_, ?_, ?_, ?_, ?_⟩
  · rw [getNumericValue_eval_4, getNumericValue_eval_6, aggregate, if_pos (by decide)]
    simp only [List.foldl_cons, List.foldl_nil, zero_add]
    rw [show (4 : ℚ) + 6 = 10 by norm_num, formatResult_ten]
  · rw [getNumericValue_eval_4, getNumericValue_eval_6, aggregate, if_neg (by decide)]
    simp only [List.foldl_cons, List.foldl_nil, one_mul]
    rw [show (4 : ℚ) * 6 = 24 by norm_num, formatResult_24]
  · rw [getNumericValue_eval_11, getNumericValue_eval_22, aggregate, if_pos (by decide)]
    simp only [List.foldl_cons, List.foldl_nil, zero_add]
    rw [show (11 : ℚ) / 10 + 11 / 5 = 33 / 10 by norm_num, formatResult_33tenths]
  · rw [hd, formatResult_dsum]
  · rw [hd]
    norm_num

theorem digitChar_isDigit (d : ℕ) (h : d < 10) : (digitChar d).isDigit = true := by
  interval_cases d <;> decide

theorem digitChar_val (d : ℕ) (h : d < 10) : (digitChar d).toNat - 48 = d := by
  interval_cases d <;> decide

theorem natToRevDigits_lt (fuel n : ℕ) : ∀ d ∈ natToRevDigits fuel n, d < 10 := by
  induction fuel generalizing n with
  | zero => simp [natToRevDigits]
  | succ fuel ih =>
    intro d hd
    rw [natToRevDigits] at hd
    by_cases hn : n = 0
    · simp [hn] at hd
    · rw [if_neg hn] at hd
      rcases List.mem_cons.mp hd with h | h
      · rw [h]
        exact Nat.mod_lt _ (by norm_num)
      · exact ih _ d h

theorem charsOfNat_digits (n : ℕ) : ∀ c ∈ charsOfNat n, c.isDigit = true := by
  intro c hc
  rw [charsOfNat, List.mem_reverse] at hc
  obtain ⟨d, hd, rfl⟩ := List.mem_map.mp hc
  exact digitChar_isDigit d (natToRevDigits_lt n n d hd)

theorem natStr_digits (n : ℕ) : ∀ c ∈ natStr n, c.isDigit = true := by
  intro c hc
  rw [natStr] at hc
  by_cases hn : n = 0
  · rw [if_pos hn] at hc
    simp at hc
    rw [hc]
    decide
  · rw [if_neg hn] at hc
    exact charsOfNat_digits n c hc

theorem foldl_digits_eval (fuel : ℕ) :
    ∀ n a, n ≤ fuel →
      (((natToRevDigits fuel n).map digitChar).reverse).foldl
          (fun x c => 10 * x + (c.toNat - 48)) a =
        a * 10 ^ (natToRevDigits fuel n).length + n := by
  induction fuel with
  | zero =>
    intro n a hn
    interval_cases n
    simp [natToRevDigits]
  | succ fuel ih =>
    intro n a hn
    by_cases hz : n = 0
    · simp [natToRevDigits, hz]
    · rw [natToRevDigits, if_neg hz]
      simp only [List.map_cons, List.reverse_cons, List.foldl_append, List.foldl_cons,
        List.foldl_nil, List.length_cons]
      have hdiv : n / 10 ≤ fuel := by
        have := Nat.div_lt_self (Nat.pos_of_ne_zero hz) (by norm_num : 1 < 10)
        omega
      rw [ih (n / 10) a hdiv]
      rw [digitChar_val (n % 10) (Nat.mod_lt _ (by norm_num))]
      have hmd : 10 * (n / 10) + n % 10 = n := Nat.div_add_mod n 10
      ring_nf
      omega

theorem digitsValN_charsOfNat (n : ℕ) : digitsValN (charsOfNat n) = n := by
  rw [digitsValN, charsOfNat, natDigits]
  rw [foldl_digits_eval n n 0 (le_refl n)]
  simp

theorem digitsValN_natStr (n : ℕ) : digitsValN (natStr n) = n := by
  rw [natStr]
  by_cases hn : n = 0
  · simp [hn, digitsValN]
  · rw [if_neg hn]
    exact digitsValN_charsOfNat n

theorem isWs_false_of_digit (c : Char) (h : c.isDigit = true) : isWs c = false := by
  rw [isWs]
  unfold Char.isWhitespace
  by_cases h1 : c = ' '
  · subst h1; exact absurd h (by decide)
  · by_cases h2 : c = '\t'
    · subst h2; exact absurd h (by decide)
    · by_cases h3 : c = '\r'
      · subst h3; exact absurd h (by decide)
      · by_cases h4 : c = '\n'
        · subst h4; exact absurd h (by decide)
        · simp [h1, h2, h3, h4]

theorem digit_ne (c : Char) (h : c.isDigit = true) :
    c ≠ '.' ∧ c ≠ '-' ∧ c ≠ '+' ∧ c ≠ 'I' ∧ c ≠ 'e' ∧ c ≠ 'E' := by
  refine ⟨?_, ?_, ?_, ?_, ?_, ?_⟩ <;>
    (intro he; subst he; exact absurd h (by decide))

theorem chompDigits_append (ds : List Char) (hds : ∀ c ∈ ds, c.isDigit = true)
    (r : List Char) :
    chompDigits (ds ++ r) = (ds ++ (chompDigits r).1, (chompDigits r).2) := by
  induction ds with
  | nil => simp
  | cons c t ih =>
    have hc : c.isDigit = true := hds c (List.mem_cons_self c t)
    rw [List.cons_append, chompDigits, if_pos hc]
    rw [ih (fun x hx => hds x (List.mem_cons_of_mem c hx))]
    rfl

theorem chompDigits_not_digit (r : List Char)
    (hr : r = [] ∨ ∃ d r2, r = d :: r2 ∧ d.isDigit = false) :
    chompDigits r = ([], r) := by
  rcases hr with rfl | ⟨d, r2, rfl, hd⟩
  · rfl
  · rw [chompDigits, if_neg (by simp [hd])]

theorem natStr_shape (n : ℕ) :
    ∃ c t, natStr n = c :: t ∧ c.isDigit = true := by
  rw [natStr]
  by_cases hn : n = 0
  · exact ⟨'0', [], by rw [if_pos hn], by decide⟩
  · rw [if_neg hn]
    rcases hcs : charsOfNat n with _ | ⟨c, t⟩
    · exfalso
      have := digitsValN_charsOfNat n
      rw [hcs] at this
      simp [digitsValN] at this
      exact hn this.symm
    · refine ⟨c, t, rfl, ?_⟩
      apply charsOfNat_digits n
      rw [hcs]
      exact List.mem_cons_self c t

theorem splitSign_digit_head (c : Char) (r : List Char) (h : c.isDigit = true) :
    splitSign (c :: r) = (false, c :: r) := by
  obtain ⟨-, h2, h3, -, -, -⟩ := digit_ne c h
  simp only [splitSign]
  rw [if_neg h2, if_neg h3]

theorem infinity_not_digit_head (c : Char) (r : List Char) (h : c.isDigit = true) :
    infinityChars.isPrefixOf (c :: r) = false := by
  obtain ⟨-, -, -, h4, -, -⟩ := digit_ne c h
  have hbe : ('I' == c) = false := by
    rw [beq_eq_false_iff_ne]
    exact fun he => h4 he.symm
  show List.isPrefixOf ('I' :: "nfinity".data) (c :: r) = false
  simp [List.isPrefixOf, hbe]

theorem parseMantissa_digits (ip : ℕ) (fs : List Char)
    (hfs : ∀ c ∈ fs, c.isDigit = true) :
    parseMantissa (natStr ip ++ (if fs.isEmpty then [] else '.' :: fs)) =
      some (((ip : ℚ) + (digitsValN fs : ℚ) / 10 ^ fs.length, [])) := by
  obtain ⟨c, t, hns, hc⟩ := natStr_shape ip
  have hdigits := natStr_digits ip
  have hval := digitsValN_natStr ip
  have hchomp : chompDigits (natStr ip ++ (if fs.isEmpty then [] else '.' :: fs)) =
      (natStr ip, if fs.isEmpty then [] else '.' :: fs) := by
    rw [chompDigits_append (natStr ip) hdigits]
    rw [chompDigits_not_digit]
    · simp
    · rcases fs with _ | ⟨f, fs2⟩
      · exact Or.inl rfl
      · exact Or.inr ⟨'.', f :: fs2, by simp, by decide⟩
  rw [hns] at hchomp hval ⊢
  obtain ⟨hdot, -, -, -, -, -⟩ := digit_ne c hc
  rw [List.cons_append, parseMantissa, if_neg hdot, ← List.cons_append, hchomp]
  simp only [List.isEmpty_cons, Bool.false_eq_true, if_false]
  rcases fs with _ | ⟨f, fs2⟩
  · simp only [List.isEmpty_nil, if_true]
    rw [hval]
    simp [digitsValN]
  · simp only [List.isEmpty_cons, Bool.false_eq_true, if_false, if_true]
    have hfr : chompDigits (f :: fs2) = (f :: fs2, []) := by
      have := chompDigits_append (f :: fs2) hfs []
      simpa [chompDigits] using this
    rw [hfr, hval]

theorem parseFloatVal_render (neg : Bool) (ip : ℕ) (fs : List Char)
    (hfs : ∀ c ∈ fs, c.isDigit = true) :
    parseFloatVal (String.mk
        ((if neg then ['-'] else []) ++ natStr ip ++ (if fs.isEmpty then [] else '.' :: fs))) =
      (if neg then (-1 : ℚ) else 1) * ((ip : ℚ) + (digitsValN fs : ℚ) / 10 ^ fs.length) := by
  obtain ⟨c, t, hns, hc⟩ := natStr_shape ip
  have hpm := parseMantissa_digits ip fs hfs
  rw [hns] at hpm ⊢
  rw [List.cons_append] at hpm
  have hq : qpow10 (parseExp ([] : List Char)).1 = 1 := by
    rw [show (parseExp ([] : List Char)).1 = 0 from rfl, qpow10, if_pos le_rfl]
    simp
  cases neg with
  | false =>
    simp only [Bool.false_eq_true, if_false, List.nil_append, List.cons_append]
    simp only [parseFloatVal]
    have h1 : List.dropWhile isWs (c :: (t ++ if fs.isEmpty then [] else '.' :: fs)) =
        c :: (t ++ if fs.isEmpty then [] else '.' :: fs) := by
      rw [List.dropWhile_cons, if_neg (by simp [isWs_false_of_digit c hc])]
    have h2 := splitSign_digit_head c (t ++ if fs.isEmpty then [] else '.' :: fs) hc
    simp only [h1, h2, infinity_not_digit_head c _ hc, Bool.false_eq_true, if_false, hpm, hq]
    ring
  | true =>
    simp only [if_true, List.cons_append, List.nil_append]
    simp only [parseFloatVal]
    have h1 : List.dropWhile isWs ('-' :: c :: (t ++ if fs.isEmpty then [] else '.' :: fs)) =
        '-' :: c :: (t ++ if fs.isEmpty then [] else '.' :: fs) := by
      rw [List.dropWhile_cons, if_neg (by decide)]
    have h2 : splitSign ('-' :: c :: (t ++ if fs.isEmpty then [] else '.' :: fs)) =
        (true, c :: (t ++ if fs.isEmpty then [] else '.' :: fs)) := by
      simp [splitSign]
    simp only [h1, h2, infinity_not_digit_head c _ hc, Bool.false_eq_true, if_false, if_true, hpm, hq]
    ring

theorem digitsValN_append_zeros (xs : List Char) (k : ℕ) :
    digitsValN (xs ++ List.replicate k '0') = digitsValN xs * 10 ^ k := by
  rw [digitsValN, List.foldl_append, ← digitsValN]
  generalize digitsValN xs = v
  induction k generalizing v with
  | zero => simp
  | succ k ih =>
    rw [List.replicate_succ, List.foldl_cons]
    rw [show (('0' : Char).toNat - 48) = 0 from rfl, Nat.add_zero]
    rw [ih (10 * v)]
    ring

theorem digitsValN_leading_zeros (j : ℕ) (xs : List Char) :
    digitsValN (List.replicate j '0' ++ xs) = digitsValN xs := by
  rw [digitsValN, List.foldl_append]
  have hz : List.foldl (fun x c => 10 * x + (c.toNat - 48)) 0 (List.replicate j '0') = 0 := by
    induction j with
    | zero => rfl
    | succ j ih => rw [List.replicate_succ, List.foldl_cons]; simpa using ih
  rw [hz, ← digitsValN]

theorem natToRevDigits_length_le (fuel : ℕ) :
    ∀ n k, n ≤ fuel → n < 10 ^ k → (natToRevDigits fuel n).length ≤ k := by
  induction fuel with
  | zero =>
    intro n k hn _
    interval_cases n
    simp [natToRevDigits]
  | succ fuel ih =>
    intro n k hn hk
    by_cases hz : n = 0
    · simp [natToRevDigits, hz]
    · rw [natToRevDigits, if_neg hz, List.length_cons]
      have hk1 : 1 ≤ k := by
        by_contra hc
        interval_cases k
        omega
      have hdiv : n / 10 < 10 ^ (k - 1) := by
        rw [Nat.div_lt_iff_lt_mul (by norm_num)]
        calc n < 10 ^ k := hk
          _ = 10 ^ (k - 1) * 10 := by rw [← pow_succ]; congr 1; omega
      have hfuel : n / 10 ≤ fuel := by
        have := Nat.div_lt_self (Nat.pos_of_ne_zero hz) (by norm_num : 1 < 10)
        omega
      have := ih (n / 10) (k - 1) hfuel hdiv
      omega

theorem fracChars_length (f : ℕ) (h : f < 10 ^ 6) : (fracChars f).length = 6 := by
  rw [fracChars]
  rw [List.length_append, List.length_replicate]
  have hle : (charsOfNat f).length ≤ 6 := by
    rw [charsOfNat, List.length_reverse, List.length_map, natDigits]
    exact natToRevDigits_length_le f f 6 (le_refl f) h
  omega

theorem digitsValN_fracChars (f : ℕ) : digitsValN (fracChars f) = f := by
  rw [fracChars, digitsValN_leading_zeros, digitsValN_charsOfNat]

theorem fracChars_digits (f : ℕ) : ∀ c ∈ fracChars f, c.isDigit = true := by
  intro c hc
  rw [fracChars] at hc
  rcases List.mem_append.mp hc with h | h
  · rw [List.eq_of_mem_replicate h]
    decide
  · exact charsOfNat_digits f c h

theorem strip_mem (ds : List Char) : ∀ c ∈ stripTrailingZeros ds, c ∈ ds := by
  intro c hc
  rw [stripTrailingZeros, List.mem_reverse] at hc
  have := (List.dropWhile_sublist (fun c => c = '0')).subset hc
  exact List.mem_reverse.mp this

theorem strip_decomp (ds : List Char) :
    ∃ k, ds = stripTrailingZeros ds ++ List.replicate k '0' := by
  refine ⟨(ds.reverse.takeWhile (fun c => decide (c = '0'))).length, ?_⟩
  have hrep : ds.reverse.takeWhile (fun c => decide (c = '0')) =
      List.replicate (ds.reverse.takeWhile (fun c => decide (c = '0'))).length '0' := by
    apply List.eq_replicate_of_mem
    intro a ha
    have := List.mem_takeWhile_imp ha
    simpa using this
  have h2 : (ds.reverse.takeWhile (fun c => decide (c = '0'))).reverse =
      List.replicate (ds.reverse.takeWhile (fun c => decide (c = '0'))).length '0' := by
    conv_lhs => rw [hrep]
    rw [List.reverse_replicate]
  calc ds = ds.reverse.reverse := (List.reverse_reverse ds).symm
    _ = ((ds.reverse.takeWhile (fun c => decide (c = '0'))) ++
          (ds.reverse.dropWhile (fun c => decide (c = '0')))).reverse := by
        rw [List.takeWhile_append_dropWhile]
    _ = stripTrailingZeros ds ++ List.replicate
          (ds.reverse.takeWhile (fun c => decide (c = '0'))).length '0' := by
        rw [List.reverse_append, stripTrailingZeros, h2]

theorem strip_last_ne_zero (ds : List Char) (c : Char)
    (h : (stripTrailingZeros ds).getLast? = some c) : c ≠ '0' := by
  rw [stripTrailingZeros, List.getLast?_reverse] at h
  have := head_dropWhile_false (fun c => decide (c = '0')) ds.reverse c h
  simpa using this

theorem parse_intStr (n : ℤ) : parseFloatVal (String.mk (intStr n)) = (n : ℚ) := by
  by_cases hn : n < 0
  · have h := parseFloatVal_render true n.natAbs [] (by simp)
    simp only [List.isEmpty_nil, if_true, List.append_nil, digitsValN, List.foldl_nil,
      List.length_nil, pow_zero, Nat.cast_zero, zero_div, add_zero,
      eq_self_iff_true] at h
    rw [intStr, if_pos hn, h]
    have hq : ((n.natAbs : ℕ) : ℚ) = -(n : ℚ) := by
      rw [Int.cast_natAbs, abs_of_neg hn]
      push_cast
      ring
    rw [hq]
    ring
  · have h := parseFloatVal_render false n.natAbs [] (by simp)
    simp only [List.isEmpty_nil, if_true, Bool.false_eq_true, if_false, List.append_nil,
      List.nil_append, digitsValN, List.foldl_nil,
      List.length_nil, pow_zero, Nat.cast_zero, zero_div, add_zero] at h
    rw [intStr, if_neg hn, List.nil_append, h]
    have hq : ((n.natAbs : ℕ) : ℚ) = (n : ℚ) := by
      rw [Int.cast_natAbs, abs_of_nonneg (not_lt.mp hn)]
    rw [hq]
    ring

theorem parse_renderScaled6 (m : ℤ) :
    parseFloatVal (String.mk (renderScaled6 m)) = (m : ℚ) / 10 ^ 6 := by
  have hfp : m.natAbs % 10 ^ 6 < 10 ^ 6 := Nat.mod_lt _ (by norm_num)
  obtain ⟨k, hk⟩ := strip_decomp (fracChars (m.natAbs % 10 ^ 6))
  have hfs : ∀ c ∈ stripTrailingZeros (fracChars (m.natAbs % 10 ^ 6)), c.isDigit = true :=
    fun c hc => fracChars_digits _ c (strip_mem _ c hc)
  have hlen : (stripTrailingZeros (fracChars (m.natAbs % 10 ^ 6))).length + k = 6 := by
    have h6 := fracChars_length (m.natAbs % 10 ^ 6) hfp
    rw [hk, List.length_append, List.length_replicate] at h6
    exact h6
  have hvalk : digitsValN (stripTrailingZeros (fracChars (m.natAbs % 10 ^ 6))) * 10 ^ k =
      m.natAbs % 10 ^ 6 := by
    have hv := digitsValN_fracChars (m.natAbs % 10 ^ 6)
    rw [hk, digitsValN_append_zeros] at hv
    exact hv
  have harith : ∀ v L j : ℕ, ((v : ℚ)) / 10 ^ L = ((v * 10 ^ j : ℕ) : ℚ) / 10 ^ (L + j) := by
    intro v L j
    push_cast
    rw [pow_add]
    exact (mul_div_mul_right _ _ (pow_ne_zero j (by norm_num : (10 : ℚ) ≠ 0))).symm
  have hfrac : (digitsValN (stripTrailingZeros (fracChars (m.natAbs % 10 ^ 6))) : ℚ) /
      10 ^ (stripTrailingZeros (fracChars (m.natAbs % 10 ^ 6))).length =
      ((m.natAbs % 10 ^ 6 : ℕ) : ℚ) / 10 ^ 6 := by
    rw [harith _ _ k, hvalk, hlen]
  have hsplit : (m.natAbs : ℚ) =
      ((m.natAbs / 10 ^ 6 : ℕ) : ℚ) * 10 ^ 6 + ((m.natAbs % 10 ^ 6 : ℕ) : ℚ) := by
    have h0 := Nat.div_add_mod m.natAbs (10 ^ 6)
    have h1 : ((10 ^ 6 * (m.natAbs / 10 ^ 6) + m.natAbs % 10 ^ 6 : ℕ) : ℚ) =
        ((m.natAbs : ℕ) : ℚ) := by exact_mod_cast congrArg (fun x : ℕ => (x : ℚ)) h0
    push_cast at h1
    linarith [h1]
  by_cases hm : m < 0
  · have h := parseFloatVal_render true (m.natAbs / 10 ^ 6)
      (stripTrailingZeros (fracChars (m.natAbs % 10 ^ 6))) hfs
    simp only [eq_self_iff_true, if_true] at h
    simp only [renderScaled6]
    rw [if_pos hm, h, hfrac]
    have hcast : ((m.natAbs : ℕ) : ℚ) = -(m : ℚ) := by
      rw [Int.cast_natAbs, abs_of_neg hm]
      push_cast
      ring
    rw [hcast] at hsplit
    field_simp
    linarith [hsplit]
  · have h := parseFloatVal_render false (m.natAbs / 10 ^ 6)
      (stripTrailingZeros (fracChars (m.natAbs % 10 ^ 6))) hfs
    simp only [Bool.false_eq_true, if_false, List.nil_append] at h
    simp only [renderScaled6]
    rw [if_neg hm, List.nil_append, h, hfrac]
    have hcast : ((m.natAbs : ℕ) : ℚ) = (m : ℚ) := by
      rw [Int.cast_natAbs, abs_of_nonneg (not_lt.mp hm)]
    rw [hcast] at hsplit
    field_simp
    linarith [hsplit]

theorem jsRound6_scaled (m : ℤ) : jsRound6 ((m : ℚ) / 10 ^ 6) = m := by
  rw [jsRound6]
  by_cases hm : (m : ℚ) / 10 ^ 6 < 0
  · rw [if_pos hm]
    rw [abs_of_neg hm]
    rw [show -((m : ℚ) / 10 ^ 6) * 10 ^ 6 = ((-m : ℤ) : ℚ) by push_cast; field_simp]
    rw [Int.floor_int_add]
    norm_num
  · rw [if_neg hm]
    rw [show (m : ℚ) / 10 ^ 6 * 10 ^ 6 = ((m : ℤ) : ℚ) by field_simp]
    rw [Int.floor_int_add]
    norm_num

theorem dot_not_mem_sign_natStr (l : List Char) (hl : l = ['-'] ∨ l = []) (ip : ℕ) :
    '.' ∉ l ++ natStr ip := by
  intro hmem
  rcases List.mem_append.mp hmem with h | h
  · rcases hl with rfl | rfl
    · simp at h
    · simp at h
  · exact absurd (natStr_digits ip '.' h) (by decide)

theorem renderScaled6_exact (m q : ℤ) (hq : m = q * 10 ^ 6) :
    renderScaled6 m = (if q < 0 then ['-'] else []) ++ natStr q.natAbs := by
  have hA : m.natAbs = q.natAbs * 10 ^ 6 := by
    rw [hq, Int.natAbs_mul]
    norm_num
  have hip : m.natAbs / 10 ^ 6 = q.natAbs := by
    rw [hA]
    exact Nat.mul_div_cancel _ (by norm_num)
  have hfp : m.natAbs % 10 ^ 6 = 0 := by
    rw [hA]
    exact Nat.mul_mod_left _ _
  have hsign : m < 0 ↔ q < 0 := by
    rw [hq]
    constructor <;> intro h <;> nlinarith
  rw [renderScaled6]
  simp only [hip, hfp]
  rw [show stripTrailingZeros (fracChars 0) = [] by decide]
  simp only [List.isEmpty_nil, if_true, List.append_nil]
  by_cases hql : q < 0
  · rw [if_pos (hsign.mpr hql), if_pos hql]
  · rw [if_neg (fun hc => hql (hsign.mp hc)), if_neg hql]

/-- C6: `formatResult` renders an integer value with no fractional part
(no decimal point appears); when a fractional part is printed its last digit
is never `'0'` (trailing zeros are stripped); and the format → parse →
format round trip is the identity on the formatted string. -/
theorem formatResult_idem (v : ℚ) :
    (v.den = 1 → '.' ∉ (formatResult v).data) ∧
    ('.' ∈ (formatResult v).data →
      ∀ c, (formatResult v).data.getLast? = some c → c ≠ '0') ∧
    formatResult (parseFloatVal (formatResult v)) = formatResult v := by
  by_cases hden : v.den = 1
  · have hfmt : formatResult v = String.mk (intStr v.num) := by
      rw [formatResult, if_pos hden]
    have hdot : '.' ∉ (formatResult v).data := by
      rw [hfmt]
      intro h
      have h2 : '.' ∈ (if v.num < 0 then ['-'] else []) ++ natStr v.num.natAbs := h
      exact dot_not_mem_sign_natStr (if v.num < 0 then ['-'] else [])
        (by by_cases h0 : v.num < 0 <;> simp [h0]) v.num.natAbs h2
    refine ⟨fun _ => hdot, fun hc => absurd hc hdot, ?_⟩
    rw [hfmt, parse_intStr, (Rat.den_eq_one_iff v).mp hden]
    exact hfmt
  · have hfmt : formatResult v = String.mk (renderScaled6 (jsRound6 v)) := by
      rw [formatResult, if_neg hden]
    refine ⟨fun hc => absurd hc hden, ?_, ?_⟩
    · rw [hfmt]
      intro hdot c hlast
      rcases hfs : stripTrailingZeros (fracChars ((jsRound6 v).natAbs % 10 ^ 6)) with _ | ⟨f, ft⟩
      · exfalso
        rw [renderScaled6] at hdot
        simp only [hfs, List.isEmpty_nil, if_true, List.append_nil] at hdot
        exact dot_not_mem_sign_natStr _
          (by by_cases h0 : jsRound6 v < 0 <;> simp [h0]) _ hdot
      · rw [renderScaled6] at hlast
        simp only [hfs, List.isEmpty_cons, Bool.false_eq_true, if_false] at hlast
        rw [List.getLast?_append_of_ne_nil _
            (show ('.' :: f :: ft : List Char) ≠ [] from by simp)] at hlast
        have hlast2 : (f :: ft).getLast? = some c := by
          rw [List.getLast?_cons_cons] at hlast
          exact hlast
        have hne0 := strip_last_ne_zero (fracChars ((jsRound6 v).natAbs % 10 ^ 6)) c
        rw [hfs] at hne0
        exact hne0 hlast2
    · rw [hfmt, parse_renderScaled6]
      by_cases hd2 : (((jsRound6 v : ℤ) : ℚ) / 10 ^ 6).den = 1
      · rw [formatResult, if_pos hd2]
        have hqv : ((((jsRound6 v : ℤ) : ℚ) / 10 ^ 6).num : ℚ) = ((jsRound6 v : ℤ) : ℚ) / 10 ^ 6 :=
          (Rat.den_eq_one_iff _).mp hd2
        have hint : jsRound6 v = (((jsRound6 v : ℤ) : ℚ) / 10 ^ 6).num * 10 ^ 6 := by
          have h1 : ((jsRound6 v : ℤ) : ℚ) =
              ((((jsRound6 v : ℤ) : ℚ) / 10 ^ 6).num : ℚ) * 10 ^ 6 := by
            rw [hqv]
            field_simp
          exact_mod_cast h1
        rw [renderScaled6_exact _ _ hint]
        rfl
      · rw [formatResult, if_neg hd2, jsRound6_scaled]

/-- Witness for C6: the integer `10` prints with no decimal point; for
`33/10` the format → parse → format round trip is the identity and the
printed string's last character is not `'0'`. -/
theorem formatResult_idem_witness :
    '.' ∉ (formatResult (10 : ℚ)).data ∧
    formatResult (parseFloatVal (formatResult (33 / 10 : ℚ))) = formatResult (33 / 10 : ℚ) ∧
    (∀ c, (formatResult (33 / 10 : ℚ)).data.getLast? = some c → c ≠ '0') := by
  have hmem : '.' ∈ (formatResult (33 / 10 : ℚ)).data := by
    rw [formatResult_33tenths]
    decide
  exact ⟨(formatResult_idem 10).1 (by norm_num), (formatResult_idem (33 / 10)).2.2,
    fun c hc => (formatResult_idem (33 / 10)).2.1 hmem c hc⟩
